import Mathlib

/-!
# Cobrinha (snake game): a model of `src/cobrinha/script.js`

The module-level variables of the script become the fields of `State`; every
function of the script that touches game state becomes a function on `State`.
The host environment the script talks to is made explicit in the same record:

* `random`    the results the coming calls of `Math.random()` will give, as the
              pairs one iteration of the loop in `spawnFood` consumes (the
              call for x first, then the call for y);
* `storage`   the values written with `localStorage.setItem('cobrinha_best', _)`;
* `callbacks` the browser's map of pending animation-frame callbacks;
* `nextHandle` the next handle `requestAnimationFrame` hands out;
* `updates`   an observation log: the frame time of every execution of
              `update()` made by a frame callback.

Canvas drawing (`render`, `drawGrid`, ...), the HUD text and the overlay markup
do not feed back into the game state and are left out.
-/

deriving instance DecidableEq for Except

namespace Cobrinha

/-! ## Configuration (script.js, lines 7-12) -/

def GRID_COLS : Int := 20
def GRID_ROWS : Int := 20
def INITIAL_SPEED_MS : Int := 160
def MIN_SPEED_MS : Int := 80
def SPEED_STEP : Int := 8

/-! ## Doubles

`Math.random()` gives a double and `Math.random() * GRID_COLS` is a
multiplication of doubles. A finite non-negative double is a whole number of
units of 2^-1074, the smallest positive double, whose binary digits span at
most 53 places; it is represented by that whole number. -/

/-- The double 1.0, in units of 2^-1074. -/
def ONE : Nat := 2 ^ 1074

/-- How many low binary digits of `n` lie beyond the 53 a double keeps: the
least `sh` with `n / 2 ^ sh < 2 ^ 53`. The first argument bounds the
recursion; `n` itself is enough. -/
def excessBits : Nat → Nat → Nat
  | 0, _ => 0
  | fuel + 1, n => if n < 2 ^ 53 then 0 else excessBits fuel (n / 2) + 1

/-- Rounding of an exact value to the nearest double, ties to the even
significand: the rounding every arithmetic operation on Numbers ends with. -/
def roundToDouble (n : Nat) : Nat :=
  let sh := excessBits n n
  let q := n / 2 ^ sh
  let rem := n % 2 ^ sh
  if 2 * rem > 2 ^ sh || (2 * rem == 2 ^ sh && q % 2 == 1) then (q + 1) * 2 ^ sh
  else q * 2 ^ sh

/-- `Math.floor(r * k)` for a double `r` and a whole constant `k`: the exact
product is rounded to a double, of which `Math.floor` takes the whole part. -/
def floorTimes (r : Nat) (k : Int) : Int :=
  Int.ofNat (roundToDouble (r * k.toNat) / ONE)

/-! ## Data -/

/-- A cell or a direction delta: the object literal with fields x and y. -/
structure Coord where
  x : Int
  y : Int
  deriving DecidableEq, Repr

/-- The two results of `Math.random()` one iteration of the loop in `spawnFood`
consumes, as doubles in units of 2^-1074. -/
structure Draw where
  rx : Nat
  ry : Nat
  deriving DecidableEq, Repr

/-- Ways in which a call does not complete normally. -/
inductive Fault where
  /-- reading `snake[0].x` on an empty snake -/
  | typeError
  /-- the do-while loop of `spawnFood` used up every draw without leaving -/
  | noReturn
  deriving DecidableEq, Repr

/-- One pending animation-frame callback: the handle `requestAnimationFrame`
returned for it and the closure `frame` of one `loop()` call, given by the
current value of its captured variable `lastTime`. A loop has at most one
pending callback at a time (it re-registers itself at the end of `frame`), so
the captured variable travels with the callback. -/
structure Callback where
  handle : Nat
  lastTime : Int
  deriving DecidableEq, Repr

/-- The module-level variables of script.js (lines 28-37) and the host state. -/
structure State where
  snake : List Coord
  direction : Coord
  nextDirection : Coord
  food : Option Coord
  score : Int
  best : Int
  speedMs : Int
  isRunning : Bool
  isGameOver : Bool
  loopId : Option Nat
  random : List Draw
  storage : List Int
  callbacks : List Callback
  nextHandle : Nat
  updates : List Int
  deriving DecidableEq, Repr

/-- The state after the variable declarations at the top of the script, with
`best` read from storage. -/
def boot (best : Int) (random : List Draw) : State :=
  { snake := []
    direction := ⟨1, 0⟩
    nextDirection := ⟨1, 0⟩
    food := none
    score := 0
    best := best
    speedMs := INITIAL_SPEED_MS
    isRunning := false
    isGameOver := false
    loopId := none
    random := random
    storage := []
    callbacks := []
    nextHandle := 1
    updates := [] }

/-! ## Host operations -/

/-- The host call `cancelAnimationFrame(handle)`: the callback registered under
the handle, if any is still pending, is removed from the map. -/
def cancelAnimationFrame (handle : Nat) (s : State) : State :=
  { s with callbacks := s.callbacks.filter (fun cb => cb.handle != handle) }

/-- The host call `requestAnimationFrame(frame)` for the closure whose captured
`lastTime` is given: registers it under a fresh handle and returns the handle. -/
def requestAnimationFrame (lastTime : Int) (s : State) : Nat × State :=
  (s.nextHandle,
    { s with callbacks := s.callbacks ++ [⟨s.nextHandle, lastTime⟩]
             nextHandle := s.nextHandle + 1 })

/-- The statement `if (loopId) cancelAnimationFrame(loopId);` of `pause` and
`gameOver`; a handle is truthy when it is neither null nor 0. -/
def cancelLoop (s : State) : State :=
  match s.loopId with
  | none => s
  | some h => if h != 0 then cancelAnimationFrame h s else s

/-! ## Game functions -/

/-- `isOpposite(a, b)` (script.js, lines 227-229). -/
def isOpposite (a b : Coord) : Bool :=
  a.x == -b.x && a.y == -b.y

/-- `Array.prototype.some` with a callback that also reads the index. -/
def someIdx (p : Coord → Nat → Bool) : List Coord → Nat → Bool
  | [], _ => false
  | seg :: rest, idx => p seg idx || someIdx p rest (idx + 1)

/-- The object `pos` of `spawnFood` (lines 219-222):
`Math.floor(Math.random() * GRID_COLS)` and `Math.floor(Math.random() * GRID_ROWS)`. -/
def drawCell (d : Draw) : Coord :=
  ⟨floorTimes d.rx GRID_COLS, floorTimes d.ry GRID_ROWS⟩

/-- The do-while loop of `spawnFood` (script.js, lines 218-223) over the
pending draws: the first drawn cell that lies on no segment, with the draws
left over. -/
def spawnLoop (snake : List Coord) : List Draw → Except Fault (Coord × List Draw)
  | [] => .error .noReturn
  | d :: rest =>
    let pos := drawCell d
    if snake.any (fun seg => seg.x == pos.x && seg.y == pos.y) then spawnLoop snake rest
    else .ok (pos, rest)

/-- `spawnFood()` (script.js, lines 216-225). -/
def spawnFood (s : State) : Except Fault (Coord × State) :=
  match spawnLoop s.snake s.random with
  | .error e => .error e
  | .ok (pos, rest) => .ok (pos, { s with random := rest })

/-- `initGame()` (script.js, lines 42-59). -/
def initGame (s : State) : Except Fault State :=
  let s1 : State :=
    { s with snake := [⟨8, 10⟩, ⟨7, 10⟩, ⟨6, 10⟩]
             direction := ⟨1, 0⟩
             nextDirection := ⟨1, 0⟩
             score := 0
             speedMs := INITIAL_SPEED_MS
             isRunning := false
             isGameOver := false }
  match spawnFood s1 with
  | .error e => .error e
  | .ok (pos, s2) => .ok { s2 with food := some pos }

/-- `pause()` (script.js, lines 70-75). -/
def pause (s : State) : State :=
  cancelLoop { s with isRunning := false }

/-- `gameOver()` (script.js, lines 77-88). -/
def gameOver (s : State) : State :=
  let s1 := cancelLoop { s with isRunning := false, isGameOver := true }
  if s1.score > s1.best then
    { s1 with best := s1.score, storage := s1.storage ++ [s1.score] }
  else s1

/-- The first statement of `update()` (lines 107-110): the direction in force
for this tick. -/
def effectiveDirection (s : State) : Coord :=
  if !isOpposite s.nextDirection s.direction then s.nextDirection else s.direction

/-- The object `newHead` of `update()` (lines 112-115). -/
def newHeadOf (head direction : Coord) : Coord :=
  ⟨head.x + direction.x, head.y + direction.y⟩

/-- The wall test of `update()` (line 118). -/
def hitsWall (c : Coord) : Bool :=
  decide (c.x < 0) || decide (c.x ≥ GRID_COLS) || decide (c.y < 0) || decide (c.y ≥ GRID_ROWS)

/-- The body test of `update()` (line 123). -/
def hitsBody (snake : List Coord) (c : Coord) : Bool :=
  someIdx (fun seg idx => idx != 0 && seg.x == c.x && seg.y == c.y) snake 0

/-- The food test of `update()` (line 131). -/
def eatsFood (food : Option Coord) (c : Coord) : Bool :=
  match food with
  | none => false
  | some f => c.x == f.x && c.y == f.y

/-- `update()` (script.js, lines 106-139). -/
def update (s : State) : Except Fault State :=
  let s1 : State := { s with direction := effectiveDirection s }
  match s1.snake with
  | [] => .error .typeError
  | head :: _ =>
    let newHead := newHeadOf head s1.direction
    if hitsWall newHead then .ok (gameOver s1)
    else if hitsBody s1.snake newHead then .ok (gameOver s1)
    else
      let s2 : State := { s1 with snake := newHead :: s1.snake }
      if eatsFood s2.food newHead then
        let s3 : State :=
          { s2 with score := s2.score + 10
                    speedMs := if s2.speedMs > MIN_SPEED_MS
                               then max MIN_SPEED_MS (s2.speedMs - SPEED_STEP)
                               else s2.speedMs }
        match spawnFood s3 with
        | .error e => .error e
        | .ok (pos, s4) => .ok { s4 with food := some pos }
      else .ok { s2 with snake := s2.snake.dropLast }

/-- `loop()` (script.js, lines 90-104): a new closure with `lastTime = 0`,
registered for the next frame. -/
def loop (s : State) : State :=
  let (h, s1) := requestAnimationFrame 0 s
  { s1 with loopId := some h }

/-- The closure `frame(time)` of `loop()` (lines 92-102), for the loop whose
captured `lastTime` is given. -/
def frame (lastTime time : Int) (s : State) : Except Fault State :=
  if !s.isRunning then .ok s
  else
    let lastTime1 := if lastTime == 0 then time else lastTime
    let delta := time - lastTime1
    if delta ≥ s.speedMs then
      match update s with
      | .error e => .error e
      | .ok s1 =>
        let (h, s2) := requestAnimationFrame time { s1 with updates := s1.updates ++ [time] }
        .ok { s2 with loopId := some h }
    else
      let (h, s2) := requestAnimationFrame lastTime1 s
      .ok { s2 with loopId := some h }

/-- `start()` (script.js, lines 61-68). -/
def start (s : State) : Except Fault State :=
  if s.isRunning && !s.isGameOver then .ok (pause s)
  else
    let r := if s.isGameOver then initGame s else .ok s
    match r with
    | .error e => .error e
    | .ok s1 => .ok (loop { s1 with isRunning := true })

/-! ## Event handlers -/

/-- The keydown listener (script.js, lines 273-280), given `e.key`. -/
def keydown (key : String) (s : State) : Except Fault State :=
  let k := key.toLower
  if k == "arrowup" || k == "w" then .ok { s with nextDirection := ⟨0, -1⟩ }
  else if k == "arrowdown" || k == "s" then .ok { s with nextDirection := ⟨0, 1⟩ }
  else if k == "arrowleft" || k == "a" then .ok { s with nextDirection := ⟨-1, 0⟩ }
  else if k == "arrowright" || k == "d" then .ok { s with nextDirection := ⟨1, 0⟩ }
  else if k == " " || k == "k" || k == "p" then start s
  else .ok s

/-- The click listener of the restart button (line 284). -/
def restartClick (s : State) : Except Fault State :=
  match initGame s with
  | .error e => .error e
  | .ok s1 => start s1

/-- The click listener of a d-pad button (lines 290-297), given its `data-dir`. -/
def dpadClick (dir : String) (s : State) : Except Fault State :=
  let s1 : State := if dir == "up" then { s with nextDirection := ⟨0, -1⟩ } else s
  let s2 : State := if dir == "down" then { s1 with nextDirection := ⟨0, 1⟩ } else s1
  let s3 : State := if dir == "left" then { s2 with nextDirection := ⟨-1, 0⟩ } else s2
  let s4 : State := if dir == "right" then { s3 with nextDirection := ⟨1, 0⟩ } else s3
  if !s4.isRunning then start s4 else .ok s4

/-- The touchend listener of the canvas (lines 305-315), given the swipe
`dx = t.clientX - touchStartX` and `dy = t.clientY - touchStartY`. -/
def touchend (dx dy : Int) (s : State) : Except Fault State :=
  let s1 : State :=
    if |dx| > |dy| then
      { s with nextDirection := if dx > 0 then ⟨1, 0⟩ else ⟨-1, 0⟩ }
    else
      { s with nextDirection := if dy > 0 then ⟨0, 1⟩ else ⟨0, -1⟩ }
  if !s1.isRunning then start s1 else .ok s1

/-- The host running the animation-frame callbacks for one frame at `time`:
for every handle pending when the frame begins, in order, the callback still
registered under it (it may have been cancelled by an earlier callback of the
same frame) is removed from the map and invoked. Callbacks registered
meanwhile wait for the next frame. -/
def runCallbacks (time : Int) : List Nat → State → Except Fault State
  | [], s => .ok s
  | h :: hs, s =>
    match s.callbacks.find? (fun cb => cb.handle == h) with
    | none => runCallbacks time hs s
    | some cb =>
      match frame cb.lastTime time (cancelAnimationFrame h s) with
      | .error e => .error e
      | .ok s1 => runCallbacks time hs s1

/-- One frame-presentation signal of the host at `time`. -/
def animationFrame (time : Int) (s : State) : Except Fault State :=
  runCallbacks time (s.callbacks.map (fun cb => cb.handle)) s

/-- What can happen to the game: a direct call of one of its functions, or one
of the events the script listens to. -/
inductive Event where
  | update
  | start
  | pause
  | gameOver
  | initGame
  | keydown (key : String)
  | restartClick
  | dpadClick (dir : String)
  | touchend (dx dy : Int)
  | animationFrame (time : Int)
  deriving DecidableEq, Repr

/-- The effect of one event. -/
def step (e : Event) (s : State) : Except Fault State :=
  match e with
  | .update => update s
  | .start => start s
  | .pause => .ok (pause s)
  | .gameOver => .ok (gameOver s)
  | .initGame => initGame s
  | .keydown key => keydown key s
  | .restartClick => restartClick s
  | .dpadClick dir => dpadClick dir s
  | .touchend dx dy => touchend dx dy s
  | .animationFrame time => animationFrame time s

/-- A sequence of events, one after the other. -/
def run : List Event → State → Except Fault State
  | [], s => .ok s
  | e :: es, s =>
    match step e s with
    | .error f => .error f
    | .ok s1 => run es s1

/-- The states the game can be in: those `initGame()` produces, and those
reached from them by events, the draws `Math.random()` will make next being
arbitrary at every event. -/
inductive Reachable : State → Prop where
  | init (s0 s : State) : initGame s0 = .ok s → Reachable s
  | step (e : Event) (random : List Draw) (s s1 : State) :
      Reachable s → Cobrinha.step e { s with random := random } = .ok s1 → Reachable s1

/-! ## Vocabulary of the specification -/

/-- GridModel `contains` of the specification (section 4.1), in its words:
true iff 0 ≤ col < cols and 0 ≤ row < rows. -/
def contains (c : Coord) : Prop :=
  0 ≤ c.x ∧ c.x < GRID_COLS ∧ 0 ≤ c.y ∧ c.y < GRID_ROWS

instance (c : Coord) : Decidable (contains c) := by
  unfold contains; infer_instance

/-- Direction of the specification (section 3): one of the four unit deltas
Up, Down, Left, Right. -/
def isUnitDelta (d : Coord) : Prop :=
  d = ⟨0, -1⟩ ∨ d = ⟨0, 1⟩ ∨ d = ⟨-1, 0⟩ ∨ d = ⟨1, 0⟩

instance (d : Coord) : Decidable (isUnitDelta d) := by
  unfold isUnitDelta; infer_instance

/-- What the language promises of a result of `Math.random()`: a double that is
at least 0 and less than 1. -/
def isRandom (r : Nat) : Prop :=
  roundToDouble r = r ∧ r < ONE

instance (r : Nat) : Decidable (isRandom r) := by
  unfold isRandom; infer_instance

/-- A draw both of whose numbers `Math.random()` can give. -/
def fairDraw (d : Draw) : Prop :=
  isRandom d.rx ∧ isRandom d.ry

instance (d : Draw) : Decidable (fairDraw d) := by
  unfold fairDraw; infer_instance

/-- The states reached when every draw is one `Math.random()` can give. -/
inductive Played : State → Prop where
  | init (s0 s : State) : (∀ d ∈ s0.random, fairDraw d) → initGame s0 = .ok s → Played s
  | step (e : Event) (random : List Draw) (s s1 : State) :
      Played s → (∀ d ∈ random, fairDraw d) →
      Cobrinha.step e { s with random := random } = .ok s1 → Played s1

/-- Food of the specification (section 3): present and on no snake segment. -/
def FoodFree (s : State) : Prop :=
  ∃ f, s.food = some f ∧ f ∉ s.snake

/-- Snake of the specification (section 3): non-empty, every segment inside
the grid, no coordinate twice. -/
def WellFormed (s : State) : Prop :=
  s.snake ≠ [] ∧ (∀ c ∈ s.snake, contains c) ∧ s.snake.Nodup

/-- The part of the state the invariants speak about. -/
def core (s : State) : List Coord × Option Coord × Coord × Coord × List Draw :=
  (s.snake, s.food, s.direction, s.nextDirection, s.random)

/-- Food inside the grid, with only fair draws pending. -/
def FoodInGrid (s : State) : Prop :=
  (∀ f, s.food = some f → contains f) ∧ ∀ d ∈ s.random, fairDraw d

/-- What it takes for a property of states to survive every event: it reads
only the core of the state and survives `initGame()`, `update()` and the
setting of a unit delta as pending direction. -/
structure Preserved (P : State → Prop) : Prop where
  congr : ∀ s t, core t = core s → P s → P t
  init : ∀ s s', P s → initGame s = .ok s' → P s'
  tick : ∀ s s', P s → update s = .ok s' → P s'
  turn : ∀ s d, isUnitDelta d → P s → P { s with nextDirection := d }

/-- The invariant carried along every reachable state: food off the snake, a
well-formed snake, and both directions unit deltas. -/
def Inv (s : State) : Prop :=
  FoodFree s ∧ WellFormed s ∧ isUnitDelta s.direction ∧ isUnitDelta s.nextDirection

/-! ## Example states -/

/-- The double num / 2^k, in units of 2^-1074. -/
def dyadic (num k : Nat) : Nat :=
  num * 2 ^ (1074 - k)

/-- The draw (0.375, 0.5), which gives the cell (7,10). -/
def drawOnSnake : Draw := ⟨dyadic 3 3, dyadic 1 1⟩

/-- The draw (0.5, 0.5), which gives the cell (10,10). -/
def drawTenTen : Draw := ⟨dyadic 1 1, dyadic 1 1⟩

/-- The draw (0.25, 0.25), which gives the cell (5,5). -/
def drawFiveFive : Draw := ⟨dyadic 1 2, dyadic 1 2⟩

/-- The draw (0.25, 0.3125), which gives the cell (5,6). -/
def drawFiveSix : Draw := ⟨dyadic 1 2, dyadic 5 4⟩

/-- The largest double below 1, twice: the draw that comes closest to the far
corner of the grid. -/
def drawLargest : Draw := ⟨ONE - 2 ^ 1021, ONE - 2 ^ 1021⟩

/-- A game in progress: the given snake heading in `direction`, the pending
direction `next`, one frame loop pending, one draw left. -/
def playing (snake : List Coord) (direction next : Coord) (food : Option Coord) : State :=
  { snake := snake
    direction := direction
    nextDirection := next
    food := food
    score := 0
    best := 0
    speedMs := INITIAL_SPEED_MS
    isRunning := true
    isGameOver := false
    loopId := some 1
    random := [⟨0, 0⟩]
    storage := []
    callbacks := [⟨1, 0⟩]
    nextHandle := 2
    updates := [] }

/-- A session about to end with the given score against the given best. -/
def ending (score best : Int) : State :=
  { playing [⟨19, 5⟩, ⟨18, 5⟩, ⟨17, 5⟩] ⟨1, 0⟩ ⟨1, 0⟩ (some ⟨3, 3⟩) with
    score := score, best := best }

/-- The game as the script leaves it once loaded: `initGame()` on the booted
state drew (7,10), which lies on the snake, and then (10,10). -/
def loaded : State :=
  { boot 0 [drawFiveFive] with
    snake := [⟨8, 10⟩, ⟨7, 10⟩, ⟨6, 10⟩]
    food := some ⟨10, 10⟩ }

/-- The loaded game after play was started and two ticks were made, the second
one eating the food at (10,10) and drawing the next food at (5,5). -/
def afterTwoTicks : State :=
  { loaded with
    snake := [⟨10, 10⟩, ⟨9, 10⟩, ⟨8, 10⟩, ⟨7, 10⟩]
    food := some ⟨5, 5⟩
    score := 10
    speedMs := 152
    isRunning := true
    loopId := some 4
    random := []
    callbacks := [⟨4, 420⟩]
    nextHandle := 5
    updates := [260, 420] }

/-- Twelve frames 160 ms apart, from 260 on: enough for the initial snake to
run from (8,10) into the right wall. -/
def twelveFrames : List Event :=
  (List.range 12).map (fun k => Event.animationFrame (260 + 160 * (k : Int)))

set_option exponentiation.threshold 1100
set_option maxRecDepth 100000

/-! ## The range of `Math.floor(Math.random() * 20)` -/

theorem excessBits_le (fuel n k : Nat) (h : n < 2 ^ (53 + k)) : excessBits fuel n ≤ k := by
  induction fuel generalizing n k with
  | zero => simp [excessBits]
  | succ f ih =>
    unfold excessBits
    split
    · exact Nat.zero_le _
    · rename_i hn
      cases k with
      | zero => exact absurd h hn
      | succ j =>
        have : n / 2 < 2 ^ (53 + j) := by
          rw [Nat.div_lt_iff_lt_mul (by norm_num)]
          calc n < 2 ^ (53 + (j + 1)) := h
            _ = 2 ^ (53 + j) * 2 := by rw [← Nat.add_assoc, Nat.pow_succ]
        exact Nat.succ_le_succ (ih (n / 2) j this)

theorem excessBits_div_lt (fuel n : Nat) (h : n ≤ fuel) :
    n / 2 ^ excessBits fuel n < 2 ^ 53 := by
  induction fuel generalizing n with
  | zero =>
    have : n = 0 := by omega
    subst this
    simp [excessBits]
  | succ f ih =>
    unfold excessBits
    split
    · rename_i hn
      simpa using hn
    · rename_i hn
      have h2 : n / 2 ≤ f := by
        have : 2 ≤ n := by
          have : (2:Nat) ≤ 2 ^ 53 := by norm_num
          omega
        omega
      have := ih (n / 2) h2
      rw [Nat.pow_succ, Nat.mul_comm, ← Nat.div_div_eq_div_mul]
      exact this

theorem roundToDouble_cases (n : Nat) :
    roundToDouble n = n / 2 ^ excessBits n n * 2 ^ excessBits n n ∨
    (roundToDouble n = (n / 2 ^ excessBits n n + 1) * 2 ^ excessBits n n ∧
      2 ^ excessBits n n ≤ 2 * (n % 2 ^ excessBits n n)) := by
  unfold roundToDouble
  dsimp only
  split
  · rename_i h
    right
    refine ⟨rfl, ?_⟩
    simp only [Bool.or_eq_true, decide_eq_true_eq, Bool.and_eq_true, beq_iff_eq] at h
    rcases h with h | h
    · omega
    · omega
  · left; rfl

theorem isRandom_le (r : Nat) (h : isRandom r) : r ≤ ONE - 2 ^ 1021 := by
  obtain ⟨hfix, hlt⟩ := h
  have hsh : excessBits r r ≤ 1021 := excessBits_le r r 1021 (by simpa [ONE] using hlt)
  have hq := excessBits_div_lt r r (le_refl r)
  have hpos : 0 < 2 ^ excessBits r r := Nat.two_pow_pos _
  have hpow : 2 ^ excessBits r r ≤ 2 ^ 1021 := Nat.pow_le_pow_right (by norm_num) hsh
  have hcases := roundToDouble_cases r
  have hdiv : r < r / 2 ^ excessBits r r * 2 ^ excessBits r r + 2 ^ excessBits r r :=
    Nat.lt_div_mul_add hpos
  rw [hfix] at hcases
  generalize 2 ^ excessBits r r = p at *
  generalize r / p = q at *
  rcases hcases with h | ⟨h, -⟩
  · have h1 : q * p ≤ (2 ^ 53 - 1) * 2 ^ 1021 := Nat.mul_le_mul (by omega) hpow
    rw [h]
    calc q * p ≤ (2 ^ 53 - 1) * 2 ^ 1021 := h1
      _ = ONE - 2 ^ 1021 := by norm_num [ONE]
  · rw [Nat.add_mul, Nat.one_mul] at h
    omega

theorem roundToDouble_lt (n : Nat) (h : n ≤ 20 * (ONE - 2 ^ 1021)) :
    roundToDouble n < 20 * ONE := by
  have hsh : excessBits n n ≤ 1026 := excessBits_le n n 1026 (by
    calc n ≤ 20 * (ONE - 2 ^ 1021) := h
      _ < 2 ^ (53 + 1026) := by norm_num [ONE])
  have hdm := Nat.div_add_mod n (2 ^ excessBits n n)
  have hpow : 2 ^ excessBits n n ≤ 2 ^ 1026 := Nat.pow_le_pow_right (by norm_num) hsh
  have hn : n + 2 ^ 1025 < 20 * ONE := by
    calc n + 2 ^ 1025 ≤ 20 * (ONE - 2 ^ 1021) + 2 ^ 1025 := by omega
      _ < 20 * ONE := by norm_num [ONE]
  have h26 : (2:Nat) ^ 1026 = 2 * 2 ^ 1025 := by norm_num
  have hcases := roundToDouble_cases n
  generalize 2 ^ excessBits n n = p at *
  generalize n / p = q at *
  generalize n % p = rem at *
  generalize roundToDouble n = v at *
  rw [Nat.mul_comm p q] at hdm
  rcases hcases with hr | ⟨hr, hhalf⟩
  · omega
  · rw [Nat.add_mul, Nat.one_mul] at hr
    omega

theorem floorTimes_lt (r : Nat) (h : isRandom r) :
    0 ≤ floorTimes r 20 ∧ floorTimes r 20 < 20 := by
  have hle := isRandom_le r h
  have hlt := roundToDouble_lt (r * 20) (by rw [Nat.mul_comm]; exact Nat.mul_le_mul_left 20 hle)
  unfold floorTimes
  refine ⟨Int.ofNat_nonneg _, ?_⟩
  have : roundToDouble (r * (20 : Int).toNat) / ONE < 20 := by
    rw [Nat.div_lt_iff_lt_mul (by norm_num [ONE])]
    simpa using hlt
  exact Int.ofNat_lt.mpr this

theorem drawCell_contains (d : Draw) (h : fairDraw d) : contains (drawCell d) := by
  have hx := floorTimes_lt d.rx h.1
  have hy := floorTimes_lt d.ry h.2
  exact ⟨hx.1, hx.2, hy.1, hy.2⟩

/-- The multiplication rounds as the machine does: 0.15 is the double
5404319552844595 / 2^55, a little below 3/20, and its product with 20 rounds
to 3.0; the largest double below 1 gives 19; and a number below 1 that is no
double, which `Math.random()` cannot give, would give 20. -/
theorem floorTimes_examples :
    floorTimes (dyadic 5404319552844595 55) 20 = 3 ∧
    isRandom (dyadic 5404319552844595 55) ∧
    floorTimes (ONE - 2 ^ 1021) 20 = 19 ∧
    isRandom (ONE - 2 ^ 1021) ∧
    floorTimes (ONE - 1) 20 = 20 ∧
    ¬ isRandom (ONE - 1) := by
  decide

/-! ## The tests made by `update` and `spawnFood` -/

theorem hitsWall_false_iff (c : Coord) : hitsWall c = false ↔ contains c := by
  simp only [hitsWall, contains, GRID_COLS, GRID_ROWS, Bool.or_eq_false_iff,
    decide_eq_false_iff_not]
  constructor <;> intro h <;> omega

theorem hitsWall_true_iff (c : Coord) : hitsWall c = true ↔ ¬ contains c := by
  rw [← hitsWall_false_iff]; simp

theorem sameCell_iff (a b : Coord) : (a.x == b.x && a.y == b.y) = true ↔ a = b := by
  cases a; cases b; simp

theorem any_sameCell_iff (snake : List Coord) (c : Coord) :
    snake.any (fun seg => seg.x == c.x && seg.y == c.y) = true ↔ c ∈ snake := by
  simp only [List.any_eq_true, sameCell_iff]
  constructor
  · rintro ⟨x, hx, rfl⟩; exact hx
  · intro h; exact ⟨c, h, rfl⟩

theorem someIdx_succ_iff (c : Coord) (l : List Coord) (k : Nat) :
    someIdx (fun seg idx => idx != 0 && seg.x == c.x && seg.y == c.y) l (k + 1) = true
      ↔ c ∈ l := by
  induction l generalizing k with
  | nil => simp [someIdx]
  | cons a t ih =>
    simp only [someIdx, Bool.or_eq_true, ih, List.mem_cons]
    have h : ((k + 1 != 0 && a.x == c.x && a.y == c.y) = true) ↔ c = a := by
      cases a; cases c; simp; tauto
    rw [h]

theorem hitsBody_cons_iff (head : Coord) (body : List Coord) (c : Coord) :
    hitsBody (head :: body) c = true ↔ c ∈ body := by
  simp [hitsBody, someIdx, someIdx_succ_iff]

theorem eatsFood_iff (food : Option Coord) (c : Coord) :
    eatsFood food c = true ↔ food = some c := by
  cases food with
  | none => simp [eatsFood]
  | some f =>
    simp only [eatsFood, sameCell_iff, Option.some.injEq]
    exact eq_comm

theorem spawnLoop_ok (snake : List Coord) (draws : List Draw) (pos : Coord)
    (rest : List Draw) (h : spawnLoop snake draws = .ok (pos, rest)) :
    (∃ d ∈ draws, drawCell d = pos) ∧ pos ∉ snake ∧ ∀ d ∈ rest, d ∈ draws := by
  induction draws with
  | nil => simp [spawnLoop] at h
  | cons d ds ih =>
    unfold spawnLoop at h
    dsimp only at h
    split at h
    · obtain ⟨⟨e, he, hpos⟩, hfree, hrest⟩ := ih h
      exact ⟨⟨e, List.mem_cons_of_mem _ he, hpos⟩, hfree,
        fun x hx => List.mem_cons_of_mem _ (hrest x hx)⟩
    · rename_i hfree
      simp only [Except.ok.injEq, Prod.mk.injEq] at h
      rw [any_sameCell_iff] at hfree
      refine ⟨⟨d, List.mem_cons_self _ _, h.1⟩, by rw [← h.1]; exact hfree, ?_⟩
      intro x hx
      rw [← h.2] at hx
      exact List.mem_cons_of_mem _ hx

theorem spawnLoop_returns (snake : List Coord) (draws : List Draw)
    (h : ∃ d ∈ draws, drawCell d ∉ snake) :
    ∃ pos rest, spawnLoop snake draws = .ok (pos, rest) := by
  induction draws with
  | nil => simp at h
  | cons d ds ih =>
    unfold spawnLoop
    dsimp only
    split
    · rename_i hocc
      rw [any_sameCell_iff] at hocc
      obtain ⟨e, he, hfree⟩ := h
      rcases List.mem_cons.mp he with rfl | he
      · exact absurd hocc hfree
      · exact ih ⟨e, he, hfree⟩
    · exact ⟨drawCell d, ds, rfl⟩

/-! ## The four branches of `update` -/

theorem update_wall (s : State) (head : Coord) (body : List Coord)
    (hs : s.snake = head :: body)
    (hw : hitsWall (newHeadOf head (effectiveDirection s)) = true) :
    update s = .ok (gameOver { s with direction := effectiveDirection s }) := by
  simp [update, hs, hw]

theorem update_body (s : State) (head : Coord) (body : List Coord)
    (hs : s.snake = head :: body)
    (hw : hitsWall (newHeadOf head (effectiveDirection s)) = false)
    (hb : newHeadOf head (effectiveDirection s) ∈ body) :
    update s = .ok (gameOver { s with direction := effectiveDirection s }) := by
  have hb2 := (hitsBody_cons_iff head body _).mpr hb
  simp [update, hs, hw, hb2]

theorem update_eat (s : State) (head : Coord) (body : List Coord)
    (hs : s.snake = head :: body)
    (hw : hitsWall (newHeadOf head (effectiveDirection s)) = false)
    (hb : newHeadOf head (effectiveDirection s) ∉ body)
    (hf : s.food = some (newHeadOf head (effectiveDirection s))) :
    update s =
      match spawnLoop (newHeadOf head (effectiveDirection s) :: s.snake) s.random with
      | .error e => .error e
      | .ok (pos, rest) =>
        .ok { s with direction := effectiveDirection s
                     snake := newHeadOf head (effectiveDirection s) :: s.snake
                     score := s.score + 10
                     speedMs := if s.speedMs > MIN_SPEED_MS
                                then max MIN_SPEED_MS (s.speedMs - SPEED_STEP)
                                else s.speedMs
                     random := rest
                     food := some pos } := by
  have hb2 : hitsBody (head :: body) (newHeadOf head (effectiveDirection s)) = false := by
    rw [← Bool.not_eq_true, hitsBody_cons_iff]; exact hb
  have hf2 := (eatsFood_iff s.food _).mpr hf
  simp only [update, hs, hw, hb2, hf2, spawnFood]
  simp only [Bool.false_eq_true, if_false, if_true]
  cases spawnLoop (newHeadOf head (effectiveDirection s) :: head :: body) s.random with
  | error e => rfl
  | ok p => rfl

theorem update_move (s : State) (head : Coord) (body : List Coord)
    (hs : s.snake = head :: body)
    (hw : hitsWall (newHeadOf head (effectiveDirection s)) = false)
    (hb : newHeadOf head (effectiveDirection s) ∉ body)
    (hf : s.food ≠ some (newHeadOf head (effectiveDirection s))) :
    update s =
      .ok { s with direction := effectiveDirection s
                   snake := (newHeadOf head (effectiveDirection s) :: s.snake).dropLast } := by
  have hb2 : hitsBody (head :: body) (newHeadOf head (effectiveDirection s)) = false := by
    rw [← Bool.not_eq_true, hitsBody_cons_iff]; exact hb
  have hf2 : eatsFood s.food (newHeadOf head (effectiveDirection s)) = false := by
    rw [← Bool.not_eq_true, eatsFood_iff]; exact hf
  simp [update, hs, hw, hb2, hf2]

theorem body_index_iff (head : Coord) (body : List Coord) (c : Coord) :
    (∃ i, 1 ≤ i ∧ (head :: body)[i]? = some c) ↔ c ∈ body := by
  constructor
  · rintro ⟨i, hi, h⟩
    obtain ⟨j, rfl⟩ : ∃ j, i = j + 1 := ⟨i - 1, by omega⟩
    rw [List.getElem?_cons_succ] at h
    exact List.mem_iff_getElem?.mpr ⟨j, h⟩
  · intro h
    obtain ⟨j, hj⟩ := List.mem_iff_getElem?.mp h
    exact ⟨j + 1, by omega, by rw [List.getElem?_cons_succ]; exact hj⟩

theorem not_mem_body_of_index (head : Coord) (body : List Coord) (c : Coord)
    (h : ∀ i, 1 ≤ i → (head :: body)[i]? ≠ some c) : c ∉ body := by
  intro hc
  obtain ⟨i, hi, hget⟩ := (body_index_iff head body c).mpr hc
  exact h i hi hget

/-! ## What `pause` and `gameOver` change -/

theorem cancelLoop_eq (s : State) :
    cancelLoop s = { s with callbacks := (cancelLoop s).callbacks } := by
  unfold cancelLoop
  split
  · rfl
  · split <;> rfl

theorem pause_eq (s : State) :
    pause s = { s with isRunning := false, callbacks := (pause s).callbacks } := by
  unfold pause
  rw [cancelLoop_eq]

theorem gameOver_eq (s : State) :
    gameOver s =
      { s with isRunning := false
               isGameOver := true
               callbacks := (gameOver s).callbacks
               best := max s.best s.score
               storage := if s.score > s.best then s.storage ++ [s.score] else s.storage } := by
  unfold gameOver
  rw [cancelLoop_eq]
  simp only []
  split
  · rename_i h
    simp only [max_eq_right (le_of_lt h)]
  · rename_i h
    simp only [max_eq_left (not_lt.mp h)]

/-! ## The tick -/

theorem update_returns (s : State) (head : Coord) (body : List Coord)
    (hs : s.snake = head :: body)
    (hfree : ∃ d ∈ s.random, drawCell d ∉ newHeadOf head (effectiveDirection s) :: s.snake) :
    ∃ s', update s = .ok s' := by
  cases hw : hitsWall (newHeadOf head (effectiveDirection s)) with
  | true => exact ⟨_, update_wall s head body hs hw⟩
  | false =>
    by_cases hb : newHeadOf head (effectiveDirection s) ∈ body
    · exact ⟨_, update_body s head body hs hw hb⟩
    · by_cases hf : s.food = some (newHeadOf head (effectiveDirection s))
      · obtain ⟨pos, rest, hsp⟩ := spawnLoop_returns _ _ hfree
        rw [update_eat s head body hs hw hb hf, hsp]
        exact ⟨_, rfl⟩
      · exact ⟨_, update_move s head body hs hw hb hf⟩

/-- C1. Food-consuming tick: when the new head is inside the grid, on no
segment of index 1 or more, and on the food, every run of `update()` leaves the
snake as the new head in front of the whole old snake (one longer), the score
10 higher, `speedMs` at max(80, speedMs - 8) if it was at least 80, `best`,
`isRunning` and `isGameOver` untouched, and a food cell off the grown snake;
and `update()` does return as soon as one pending draw is off the grown snake. -/
theorem food_tick (s : State) (head : Coord) (body : List Coord)
    (hs : s.snake = head :: body)
    (hin : contains (newHeadOf head (effectiveDirection s)))
    (hbody : ∀ i, 1 ≤ i → s.snake[i]? ≠ some (newHeadOf head (effectiveDirection s)))
    (hfood : s.food = some (newHeadOf head (effectiveDirection s))) :
    (∀ s', update s = .ok s' →
        s'.snake = newHeadOf head (effectiveDirection s) :: s.snake ∧
        s'.snake.length = s.snake.length + 1 ∧
        s'.score = s.score + 10 ∧
        (80 ≤ s.speedMs → s'.speedMs = max 80 (s.speedMs - 8)) ∧
        s'.best = s.best ∧ s'.isRunning = s.isRunning ∧ s'.isGameOver = s.isGameOver ∧
        (∃ f, s'.food = some f ∧ f ∉ s'.snake)) ∧
    ((∃ d ∈ s.random, drawCell d ∉ newHeadOf head (effectiveDirection s) :: s.snake) →
        ∃ s', update s = .ok s') := by
  have hw := (hitsWall_false_iff _).mpr hin
  have hb := not_mem_body_of_index head body _ (hs ▸ hbody)
  have hu := update_eat s head body hs hw hb hfood
  refine ⟨?_, update_returns s head body hs⟩
  intro s' h
  rw [hu] at h
  cases hsp : spawnLoop (newHeadOf head (effectiveDirection s) :: s.snake) s.random with
  | error e => rw [hsp] at h; simp at h
  | ok p =>
    obtain ⟨pos, rest⟩ := p
    rw [hsp] at h
    simp only [Except.ok.injEq] at h
    subst h
    have hpos := spawnLoop_ok _ _ _ _ hsp
    refine ⟨rfl, by simp, rfl, ?_, rfl, rfl, rfl, ⟨pos, rfl, hpos.2.1⟩⟩
    intro h80
    simp only [MIN_SPEED_MS, SPEED_STEP]
    split
    · rfl
    · rw [max_eq_left (by omega)]; omega

theorem food_tick_witness :
    ∃ s', update (playing [⟨8, 10⟩, ⟨7, 10⟩, ⟨6, 10⟩] ⟨1, 0⟩ ⟨1, 0⟩ (some ⟨9, 10⟩)) = .ok s' ∧
      s'.snake = [⟨9, 10⟩, ⟨8, 10⟩, ⟨7, 10⟩, ⟨6, 10⟩] ∧ s'.score = 10 ∧ s'.speedMs = 152 := by
  have h := food_tick (playing [⟨8, 10⟩, ⟨7, 10⟩, ⟨6, 10⟩] ⟨1, 0⟩ ⟨1, 0⟩ (some ⟨9, 10⟩))
    ⟨8, 10⟩ [⟨7, 10⟩, ⟨6, 10⟩] rfl (by decide) (by
      intro i hi
      match i, hi with
      | 1, _ => decide
      | 2, _ => decide
      | (n + 3), _ => simp [playing]) (by decide)
  obtain ⟨s', hs'⟩ := h.2 ⟨⟨0, 0⟩, by decide, by decide⟩
  obtain ⟨h1, -, h3, h4, -⟩ := h.1 s' hs'
  refine ⟨s', hs', h1, h3, ?_⟩
  rw [h4 (by decide)]
  decide

/-- C2. No-food tick: with a non-empty snake, when the new head is inside the
grid, on no segment of index 1 or more, and not on the food, `update()` returns
and leaves the snake as the new head followed by the old snake without its
last segment (same length), and score, `speedMs`, food and best untouched. -/
theorem plain_tick (s : State) (head : Coord) (body : List Coord)
    (hs : s.snake = head :: body)
    (hin : contains (newHeadOf head (effectiveDirection s)))
    (hbody : ∀ i, 1 ≤ i → s.snake[i]? ≠ some (newHeadOf head (effectiveDirection s)))
    (hfood : s.food ≠ some (newHeadOf head (effectiveDirection s))) :
    ∃ s', update s = .ok s' ∧
      s'.snake = newHeadOf head (effectiveDirection s) :: s.snake.dropLast ∧
      s'.snake.length = s.snake.length ∧
      s'.score = s.score ∧ s'.speedMs = s.speedMs ∧ s'.food = s.food ∧ s'.best = s.best := by
  have hw := (hitsWall_false_iff _).mpr hin
  have hb := not_mem_body_of_index head body _ (hs ▸ hbody)
  refine ⟨_, update_move s head body hs hw hb hfood, ?_, ?_, rfl, rfl, rfl, rfl⟩
  · simp [hs]
  · simp [hs]

theorem plain_tick_witness :
    ∃ s', update (playing [⟨8, 10⟩, ⟨7, 10⟩, ⟨6, 10⟩] ⟨1, 0⟩ ⟨0, 1⟩ (some ⟨3, 3⟩)) = .ok s' ∧
      s'.snake = [⟨8, 11⟩, ⟨8, 10⟩, ⟨7, 10⟩] ∧ s'.score = 0 ∧ s'.food = some ⟨3, 3⟩ := by
  obtain ⟨s', h, h1, -, h3, -, h5, -⟩ :=
    plain_tick (playing [⟨8, 10⟩, ⟨7, 10⟩, ⟨6, 10⟩] ⟨1, 0⟩ ⟨0, 1⟩ (some ⟨3, 3⟩))
      ⟨8, 10⟩ [⟨7, 10⟩, ⟨6, 10⟩] rfl (by decide) (by
        intro i hi
        match i, hi with
        | 1, _ => decide
        | 2, _ => decide
        | (n + 3), _ => simp [playing]) (by decide)
  exact ⟨s', h, h1, h3, h5⟩

theorem update_direction (s s' : State) (h : update s = .ok s') :
    s'.direction = effectiveDirection s := by
  cases hsn : s.snake with
  | nil => simp [update, hsn] at h
  | cons head body =>
    cases hw : hitsWall (newHeadOf head (effectiveDirection s)) with
    | true =>
      rw [update_wall s head body hsn hw] at h
      simp only [Except.ok.injEq] at h
      rw [← h, gameOver_eq]
    | false =>
      by_cases hb : newHeadOf head (effectiveDirection s) ∈ body
      · rw [update_body s head body hsn hw hb] at h
        simp only [Except.ok.injEq] at h
        rw [← h, gameOver_eq]
      · by_cases hf : s.food = some (newHeadOf head (effectiveDirection s))
        · rw [update_eat s head body hsn hw hb hf] at h
          cases hsp : spawnLoop (newHeadOf head (effectiveDirection s) :: s.snake) s.random with
          | error e => rw [hsp] at h; simp at h
          | ok p =>
            rw [hsp] at h
            simp only [Except.ok.injEq] at h
            rw [← h]
        · rw [update_move s head body hsn hw hb hf] at h
          simp only [Except.ok.injEq] at h
          rw [← h]

theorem isOpposite_self (d : Coord) (hd : isUnitDelta d) : isOpposite d d = false := by
  rcases hd with rfl | rfl | rfl | rfl <;> decide

/-- C3. Reversal is ignored: after any run of `update()` the current direction
is `nextDirection` when that is not the exact negation of the previous
direction, and the previous direction otherwise; it is the direction the new
head was computed from, and when the previous direction is a unit delta it is
not the exact opposite of it. `update()` returns on every non-empty snake as
soon as one pending draw is off the snake grown by the new head. -/
theorem reversal_ignored (s : State) :
    (∀ s', update s = .ok s' →
        s'.direction =
          (if isOpposite s.nextDirection s.direction then s.direction else s.nextDirection) ∧
        s'.direction = effectiveDirection s ∧
        (isUnitDelta s.direction → isOpposite s'.direction s.direction = false)) ∧
    (∀ head body, s.snake = head :: body →
        (∃ d ∈ s.random, drawCell d ∉ newHeadOf head (effectiveDirection s) :: s.snake) →
        ∃ s', update s = .ok s') := by
  refine ⟨?_, fun head body hs hfree => update_returns s head body hs hfree⟩
  intro s' h
  have hd := update_direction s s' h
  refine ⟨?_, hd, ?_⟩
  · rw [hd]
    unfold effectiveDirection
    cases isOpposite s.nextDirection s.direction <;> rfl
  · intro hu
    rw [hd]
    unfold effectiveDirection
    cases ho : isOpposite s.nextDirection s.direction with
    | true => simpa using isOpposite_self _ hu
    | false => simpa using ho

theorem reversal_ignored_witness :
    ∃ s', update (playing [⟨8, 10⟩, ⟨7, 10⟩, ⟨6, 10⟩] ⟨1, 0⟩ ⟨-1, 0⟩ (some ⟨3, 3⟩)) = .ok s' ∧
      s'.direction = ⟨1, 0⟩ ∧ s'.snake = [⟨9, 10⟩, ⟨8, 10⟩, ⟨7, 10⟩] := by
  have h := reversal_ignored (playing [⟨8, 10⟩, ⟨7, 10⟩, ⟨6, 10⟩] ⟨1, 0⟩ ⟨-1, 0⟩ (some ⟨3, 3⟩))
  obtain ⟨s', hs'⟩ := h.2 ⟨8, 10⟩ [⟨7, 10⟩, ⟨6, 10⟩] rfl ⟨⟨0, 0⟩, by decide, by decide⟩
  refine ⟨s', hs', (h.1 s' hs').1, ?_⟩
  have hev : update (playing [⟨8, 10⟩, ⟨7, 10⟩, ⟨6, 10⟩] ⟨1, 0⟩ ⟨-1, 0⟩ (some ⟨3, 3⟩)) =
      .ok { playing [⟨9, 10⟩, ⟨8, 10⟩, ⟨7, 10⟩] ⟨1, 0⟩ ⟨-1, 0⟩ (some ⟨3, 3⟩) with } := by
    decide
  rw [hev] at hs'
  simp only [Except.ok.injEq] at hs'
  rw [← hs']
  rfl

/-- C4. Wall collision: when the new head has x < 0, x ≥ 20, y < 0 or y ≥ 20,
`update()` returns with the game over (`isGameOver` true, `isRunning` false)
and snake, food, score and `speedMs` as they were. Conversely, for a new head
inside the grid the wall test is false, and unless the head lands on the body
the tick leaves `isGameOver` and `isRunning` as they were. -/
theorem wall_collision (s : State) (head : Coord) (body : List Coord)
    (hs : s.snake = head :: body) :
    ((newHeadOf head (effectiveDirection s)).x < 0 ∨
      (newHeadOf head (effectiveDirection s)).x ≥ 20 ∨
      (newHeadOf head (effectiveDirection s)).y < 0 ∨
      (newHeadOf head (effectiveDirection s)).y ≥ 20 →
        ∃ s', update s = .ok s' ∧ s'.isGameOver = true ∧ s'.isRunning = false ∧
          s'.snake = s.snake ∧ s'.food = s.food ∧ s'.score = s.score ∧
          s'.speedMs = s.speedMs) ∧
    (contains (newHeadOf head (effectiveDirection s)) →
        hitsWall (newHeadOf head (effectiveDirection s)) = false ∧
        ((∀ i, 1 ≤ i → s.snake[i]? ≠ some (newHeadOf head (effectiveDirection s))) →
          ∀ s', update s = .ok s' →
            s'.isGameOver = s.isGameOver ∧ s'.isRunning = s.isRunning)) := by
  constructor
  · intro hout
    have hw : hitsWall (newHeadOf head (effectiveDirection s)) = true := by
      rw [hitsWall_true_iff]
      simp only [contains, GRID_COLS, GRID_ROWS]
      omega
    refine ⟨_, update_wall s head body hs hw, ?_⟩
    rw [gameOver_eq]
    exact ⟨rfl, rfl, rfl, rfl, rfl, rfl⟩
  · intro hin
    have hw := (hitsWall_false_iff _).mpr hin
    refine ⟨hw, ?_⟩
    intro hbody s' h
    have hb := not_mem_body_of_index head body _ (hs ▸ hbody)
    by_cases hf : s.food = some (newHeadOf head (effectiveDirection s))
    · rw [update_eat s head body hs hw hb hf] at h
      cases hsp : spawnLoop (newHeadOf head (effectiveDirection s) :: s.snake) s.random with
      | error e => rw [hsp] at h; simp at h
      | ok p =>
        rw [hsp] at h
        simp only [Except.ok.injEq] at h
        rw [← h]
        exact ⟨rfl, rfl⟩
    · rw [update_move s head body hs hw hb hf] at h
      simp only [Except.ok.injEq] at h
      rw [← h]
      exact ⟨rfl, rfl⟩

theorem wall_collision_witness :
    newHeadOf ⟨19, 5⟩ (effectiveDirection (ending 40 50)) = ⟨20, 5⟩ ∧
    ∃ s', update (ending 40 50) = .ok s' ∧ s'.isGameOver = true ∧ s'.isRunning = false ∧
      s'.snake = [⟨19, 5⟩, ⟨18, 5⟩, ⟨17, 5⟩] := by
  refine ⟨by decide, ?_⟩
  obtain ⟨s', h, h1, h2, h3, -⟩ :=
    (wall_collision (ending 40 50) ⟨19, 5⟩ [⟨18, 5⟩, ⟨17, 5⟩] rfl).1 (Or.inr (Or.inl (by decide)))
  exact ⟨s', h, h1, h2, h3⟩

theorem update_keeps_phase (s s' : State) (head : Coord) (body : List Coord)
    (hs : s.snake = head :: body)
    (hw : hitsWall (newHeadOf head (effectiveDirection s)) = false)
    (hb : newHeadOf head (effectiveDirection s) ∉ body)
    (h : update s = .ok s') :
    s'.isGameOver = s.isGameOver ∧ s'.isRunning = s.isRunning ∧
      s'.best = s.best ∧ s'.storage = s.storage ∧ s'.callbacks = s.callbacks ∧
      s'.snake.head? = some (newHeadOf head (effectiveDirection s)) := by
  by_cases hf : s.food = some (newHeadOf head (effectiveDirection s))
  · rw [update_eat s head body hs hw hb hf] at h
    cases hsp : spawnLoop (newHeadOf head (effectiveDirection s) :: s.snake) s.random with
    | error e => rw [hsp] at h; simp at h
    | ok p =>
      rw [hsp] at h
      simp only [Except.ok.injEq] at h
      rw [← h]
      exact ⟨rfl, rfl, rfl, rfl, rfl, rfl⟩
  · rw [update_move s head body hs hw hb hf] at h
    simp only [Except.ok.injEq] at h
    rw [← h]
    refine ⟨rfl, rfl, rfl, rfl, rfl, ?_⟩
    simp [hs]

/-- C5. Self-collision policy: for a new head inside the grid, `update()` ends
the game (snake, food, score and `speedMs` unchanged) when the new head equals
a segment of the pre-move snake at an index other than 0, and otherwise every
run leaves `isGameOver`, `isRunning`, best and the stored best alone and puts
the new head in front. The test precedes the removal of the tail: on a snake
of length 2 or more a move onto the last segment ends the game even with no
food there, and so does a move onto the second segment. -/
theorem self_collision (s : State) (head : Coord) (body : List Coord)
    (hs : s.snake = head :: body)
    (hin : contains (newHeadOf head (effectiveDirection s))) :
    ((∃ i, i ≠ 0 ∧ s.snake[i]? = some (newHeadOf head (effectiveDirection s))) →
        ∃ s', update s = .ok s' ∧ s'.isGameOver = true ∧ s'.isRunning = false ∧
          s'.snake = s.snake ∧ s'.food = s.food ∧ s'.score = s.score ∧
          s'.speedMs = s.speedMs) ∧
    ((¬ ∃ i, i ≠ 0 ∧ s.snake[i]? = some (newHeadOf head (effectiveDirection s))) →
        ∀ s', update s = .ok s' →
          s'.isGameOver = s.isGameOver ∧ s'.isRunning = s.isRunning ∧
          s'.best = s.best ∧ s'.storage = s.storage ∧
          s'.snake.head? = some (newHeadOf head (effectiveDirection s))) ∧
    (2 ≤ s.snake.length →
      s.snake.getLast? = some (newHeadOf head (effectiveDirection s)) →
      s.food ≠ some (newHeadOf head (effectiveDirection s)) →
        ∃ s', update s = .ok s' ∧ s'.isGameOver = true ∧ s'.isRunning = false ∧
          s'.snake = s.snake) ∧
    (s.snake[1]? = some (newHeadOf head (effectiveDirection s)) →
        ∃ s', update s = .ok s' ∧ s'.isGameOver = true ∧ s'.isRunning = false ∧
          s'.snake = s.snake) := by
  have hw := (hitsWall_false_iff _).mpr hin
  have hover : newHeadOf head (effectiveDirection s) ∈ body →
      ∃ s', update s = .ok s' ∧ s'.isGameOver = true ∧ s'.isRunning = false ∧
        s'.snake = s.snake ∧ s'.food = s.food ∧ s'.score = s.score ∧
        s'.speedMs = s.speedMs := by
    intro hb
    refine ⟨_, update_body s head body hs hw hb, ?_⟩
    rw [gameOver_eq]
    exact ⟨rfl, rfl, rfl, rfl, rfl, rfl⟩
  refine ⟨?_, ?_, ?_, ?_⟩
  · rintro ⟨i, hi, hget⟩
    rw [hs] at hget
    exact hover ((body_index_iff head body _).mp ⟨i, by omega, hget⟩)
  · intro hno s' h
    have hb : newHeadOf head (effectiveDirection s) ∉ body := by
      intro hb
      obtain ⟨i, hi, hget⟩ := (body_index_iff head body _).mpr hb
      exact hno ⟨i, by omega, by rw [hs]; exact hget⟩
    obtain ⟨h1, h2, h3, h4, -, h6⟩ := update_keeps_phase s s' head body hs hw hb h
    exact ⟨h1, h2, h3, h4, h6⟩
  · intro hlen hlast _
    have hb : newHeadOf head (effectiveDirection s) ∈ body := by
      rw [hs] at hlen hlast
      cases body with
      | nil => simp at hlen
      | cons b bs =>
        rw [List.getLast?_cons_cons] at hlast
        exact List.mem_of_getLast?_eq_some hlast
    obtain ⟨s', h, h1, h2, h3, -⟩ := hover hb
    exact ⟨s', h, h1, h2, h3⟩
  · intro h1
    rw [hs] at h1
    obtain ⟨s', h, h1, h2, h3, -⟩ := hover ((body_index_iff head body _).mp ⟨1, le_refl 1, h1⟩)
    exact ⟨s', h, h1, h2, h3⟩

theorem self_collision_witness :
    (playing [⟨5, 5⟩, ⟨5, 6⟩, ⟨6, 6⟩, ⟨6, 5⟩] ⟨0, -1⟩ ⟨1, 0⟩ (some ⟨3, 3⟩)).snake.getLast?
      = some (newHeadOf ⟨5, 5⟩ (effectiveDirection
          (playing [⟨5, 5⟩, ⟨5, 6⟩, ⟨6, 6⟩, ⟨6, 5⟩] ⟨0, -1⟩ ⟨1, 0⟩ (some ⟨3, 3⟩)))) ∧
    ∃ s', update (playing [⟨5, 5⟩, ⟨5, 6⟩, ⟨6, 6⟩, ⟨6, 5⟩] ⟨0, -1⟩ ⟨1, 0⟩ (some ⟨3, 3⟩)) = .ok s' ∧
      s'.isGameOver = true ∧ s'.isRunning = false ∧
      s'.snake = [⟨5, 5⟩, ⟨5, 6⟩, ⟨6, 6⟩, ⟨6, 5⟩] := by
  refine ⟨by decide, ?_⟩
  exact (self_collision (playing [⟨5, 5⟩, ⟨5, 6⟩, ⟨6, 6⟩, ⟨6, 5⟩] ⟨0, -1⟩ ⟨1, 0⟩ (some ⟨3, 3⟩))
    ⟨5, 5⟩ [⟨5, 6⟩, ⟨6, 6⟩, ⟨6, 5⟩] rfl (by decide)).2.2.1 (by decide) (by decide) (by decide)

theorem loop_eq (s : State) :
    loop s = { s with callbacks := s.callbacks ++ [⟨s.nextHandle, 0⟩]
                      nextHandle := s.nextHandle + 1
                      loopId := some s.nextHandle } := rfl

theorem initGame_ok (s s' : State) (h : initGame s = .ok s') :
    ∃ pos rest, spawnLoop [⟨8, 10⟩, ⟨7, 10⟩, ⟨6, 10⟩] s.random = .ok (pos, rest) ∧
      s' = { s with snake := [⟨8, 10⟩, ⟨7, 10⟩, ⟨6, 10⟩]
                    direction := ⟨1, 0⟩
                    nextDirection := ⟨1, 0⟩
                    score := 0
                    speedMs := INITIAL_SPEED_MS
                    isRunning := false
                    isGameOver := false
                    random := rest
                    food := some pos } := by
  unfold initGame spawnFood at h
  simp only [] at h
  cases hsp : spawnLoop [⟨8, 10⟩, ⟨7, 10⟩, ⟨6, 10⟩] s.random with
  | error e => rw [hsp] at h; simp at h
  | ok p =>
    obtain ⟨pos, rest⟩ := p
    rw [hsp] at h
    simp only [Except.ok.injEq] at h
    exact ⟨pos, rest, rfl, h.symm⟩

theorem start_ok (s s' : State) (h : start s = .ok s') :
    (s.isRunning = true ∧ s.isGameOver = false ∧ s' = pause s) ∨
    (s.isGameOver = true ∧ ∃ s1, initGame s = .ok s1 ∧ s' = loop { s1 with isRunning := true }) ∨
    (s.isRunning = false ∧ s.isGameOver = false ∧ s' = loop { s with isRunning := true }) := by
  unfold start at h
  by_cases c1 : (s.isRunning && !s.isGameOver) = true
  · rw [if_pos c1] at h
    simp only [Bool.and_eq_true, Bool.not_eq_true', Except.ok.injEq] at c1 h
    exact Or.inl ⟨c1.1, c1.2, h.symm⟩
  · rw [if_neg c1] at h
    dsimp only at h
    by_cases c2 : s.isGameOver = true
    · rw [if_pos c2] at h
      cases hi : initGame s with
      | error e => rw [hi] at h; simp at h
      | ok s1 =>
        rw [hi] at h
        simp only [Except.ok.injEq] at h
        exact Or.inr (Or.inl ⟨c2, s1, rfl, h.symm⟩)
    · rw [if_neg c2] at h
      simp only [Except.ok.injEq] at h
      simp only [Bool.and_eq_true, Bool.not_eq_true', not_and, Bool.not_eq_false,
        Bool.not_eq_true] at c1 c2
      refine Or.inr (Or.inr ⟨?_, c2, h.symm⟩)
      cases hr : s.isRunning with
      | false => rfl
      | true => exact absurd (c1 hr) (by simp [c2])

theorem initGame_keeps_best (s s' : State) (h : initGame s = .ok s') :
    s'.best = s.best ∧ s'.storage = s.storage := by
  obtain ⟨pos, rest, -, rfl⟩ := initGame_ok s s' h
  exact ⟨rfl, rfl⟩

theorem start_keeps_best (s s' : State) (h : start s = .ok s') :
    s'.best = s.best ∧ s'.storage = s.storage := by
  rcases start_ok s s' h with ⟨-, -, rfl⟩ | ⟨-, s1, hi, rfl⟩ | ⟨-, -, rfl⟩
  · rw [pause_eq]
    exact ⟨rfl, rfl⟩
  · exact initGame_keeps_best s s1 hi
  · exact ⟨rfl, rfl⟩

/-- C6. Best-score update: `gameOver()` leaves best at max(best, score); it
appends exactly one write of the new best to the storage when score > best and
none when score ≤ best. `initGame`, `start`, `pause` and a non-fatal `update`
change neither best nor the storage. -/
theorem best_score (s : State) :
    (gameOver s).best = max s.best s.score ∧
    (s.score > s.best → (gameOver s).storage = s.storage ++ [s.score]) ∧
    (s.score ≤ s.best → (gameOver s).storage = s.storage) ∧
    (∀ s', initGame s = .ok s' → s'.best = s.best ∧ s'.storage = s.storage) ∧
    (∀ s', start s = .ok s' → s'.best = s.best ∧ s'.storage = s.storage) ∧
    ((pause s).best = s.best ∧ (pause s).storage = s.storage) ∧
    (∀ s' head body, s.snake = head :: body →
        contains (newHeadOf head (effectiveDirection s)) →
        (∀ i, 1 ≤ i → s.snake[i]? ≠ some (newHeadOf head (effectiveDirection s))) →
        update s = .ok s' → s'.best = s.best ∧ s'.storage = s.storage) := by
  refine ⟨?_, ?_, ?_, initGame_keeps_best s, start_keeps_best s, ?_, ?_⟩
  · rw [gameOver_eq]
  · intro h
    rw [gameOver_eq]
    simp [h]
  · intro h
    rw [gameOver_eq]
    simp [not_lt.mpr h]
  · rw [pause_eq]
    exact ⟨rfl, rfl⟩
  · intro s' head body hs hin hbody h
    have hw := (hitsWall_false_iff _).mpr hin
    have hb := not_mem_body_of_index head body _ (hs ▸ hbody)
    obtain ⟨-, -, h3, h4, -⟩ := update_keeps_phase s s' head body hs hw hb h
    exact ⟨h3, h4⟩

theorem best_score_witness :
    ((gameOver (ending 40 50)).best = 50 ∧ (gameOver (ending 40 50)).storage = []) ∧
    ((gameOver (ending 60 50)).best = 60 ∧ (gameOver (ending 60 50)).storage = [60]) := by
  refine ⟨⟨?_, ?_⟩, ?_, ?_⟩
  · rw [(best_score (ending 40 50)).1]; decide
  · rw [(best_score (ending 40 50)).2.2.1 (by decide)]; rfl
  · rw [(best_score (ending 60 50)).1]; decide
  · rw [(best_score (ending 60 50)).2.1 (by decide)]; rfl

/-! ## Invariants -/

theorem Inv_of_core (s t : State) (h : core t = core s) (hs : Inv s) : Inv t := by
  simp only [core, Prod.mk.injEq] at h
  obtain ⟨h1, h2, h3, h4, -⟩ := h
  unfold Inv FoodFree WellFormed at *
  rw [h1, h2, h3, h4]
  exact hs

theorem core_pause (s : State) : core (pause s) = core s := by
  rw [pause_eq]; rfl

theorem core_gameOver (s : State) : core (gameOver s) = core s := by
  rw [gameOver_eq]; rfl

theorem core_cancel (h : Nat) (s : State) : core (cancelAnimationFrame h s) = core s := rfl

theorem newHead_ne_head (head d : Coord) (hd : isUnitDelta d) : newHeadOf head d ≠ head := by
  intro h
  cases head with
  | mk hx hy =>
    simp only [newHeadOf, Coord.mk.injEq] at h
    rcases hd with rfl | rfl | rfl | rfl <;> simp at h

theorem effectiveDirection_unit (s : State) (h1 : isUnitDelta s.direction)
    (h2 : isUnitDelta s.nextDirection) : isUnitDelta (effectiveDirection s) := by
  unfold effectiveDirection
  split
  · exact h2
  · exact h1

theorem Inv_initGame (s s' : State) (h : initGame s = .ok s') : Inv s' := by
  obtain ⟨pos, rest, hsp, rfl⟩ := initGame_ok s s' h
  refine ⟨⟨pos, rfl, (spawnLoop_ok _ _ _ _ hsp).2.1⟩, ⟨by simp, ?_, by simp⟩,
    Or.inr (Or.inr (Or.inr rfl)), Or.inr (Or.inr (Or.inr rfl))⟩
  intro c hc
  simp only [List.mem_cons, List.mem_singleton, List.not_mem_nil, or_false] at hc
  rcases hc with rfl | rfl | rfl <;> decide

theorem Inv_update (s s' : State) (hs : Inv s) (h : update s = .ok s') : Inv s' := by
  obtain ⟨⟨f, hf, hfree⟩, ⟨hne, hgrid, hnd⟩, hd, hn⟩ := hs
  have heff := effectiveDirection_unit s hd hn
  cases hsn : s.snake with
  | nil => exact absurd hsn hne
  | cons head body =>
    have hover : Inv (gameOver { s with direction := effectiveDirection s }) := by
      refine Inv_of_core { s with direction := effectiveDirection s } _ (core_gameOver _) ?_
      exact ⟨⟨f, hf, hfree⟩, ⟨hne, hgrid, hnd⟩, heff, hn⟩
    cases hw : hitsWall (newHeadOf head (effectiveDirection s)) with
    | true =>
      rw [update_wall s head body hsn hw] at h
      simp only [Except.ok.injEq] at h
      rw [← h]; exact hover
    | false =>
      by_cases hb : newHeadOf head (effectiveDirection s) ∈ body
      · rw [update_body s head body hsn hw hb] at h
        simp only [Except.ok.injEq] at h
        rw [← h]; exact hover
      · have hin := (hitsWall_false_iff _).mp hw
        have hnew : newHeadOf head (effectiveDirection s) ∉ s.snake := by
          rw [hsn, List.mem_cons]
          rintro (h1 | h1)
          · exact newHead_ne_head head _ heff h1
          · exact hb h1
        have hgrown : (newHeadOf head (effectiveDirection s) :: s.snake).Nodup :=
          List.nodup_cons.mpr ⟨hnew, hnd⟩
        have hgrid2 : ∀ c ∈ newHeadOf head (effectiveDirection s) :: s.snake, contains c := by
          intro c hc
          rcases List.mem_cons.mp hc with rfl | hc
          · exact hin
          · exact hgrid c hc
        by_cases hfood : s.food = some (newHeadOf head (effectiveDirection s))
        · rw [update_eat s head body hsn hw hb hfood] at h
          cases hsp : spawnLoop (newHeadOf head (effectiveDirection s) :: s.snake) s.random with
          | error e => rw [hsp] at h; simp at h
          | ok p =>
            obtain ⟨pos, rest⟩ := p
            rw [hsp] at h
            simp only [Except.ok.injEq] at h
            rw [← h]
            exact ⟨⟨pos, rfl, (spawnLoop_ok _ _ _ _ hsp).2.1⟩,
              ⟨List.cons_ne_nil _ _, hgrid2, hgrown⟩, heff, hn⟩
        · rw [update_move s head body hsn hw hb hfood] at h
          simp only [Except.ok.injEq] at h
          rw [← h]
          have hsub := List.dropLast_sublist (newHeadOf head (effectiveDirection s) :: s.snake)
          refine ⟨⟨f, hf, ?_⟩, ⟨?_, ?_, hgrown.sublist hsub⟩, heff, hn⟩
          · intro hmem
            rcases List.mem_cons.mp (hsub.subset hmem) with h1 | h1
            · exact hfood (by rw [hf, h1])
            · exact hfree h1
          · show (newHeadOf head (effectiveDirection s) :: s.snake).dropLast ≠ []
            rw [hsn]; simp
          · intro c hc
            exact hgrid2 c (hsub.subset hc)

theorem keeps_start (P : State → Prop) (hP : Preserved P) (s s' : State) (hs : P s)
    (h : start s = .ok s') : P s' := by
  rcases start_ok s s' h with ⟨-, -, rfl⟩ | ⟨-, s1, hi, rfl⟩ | ⟨-, -, rfl⟩
  · exact hP.congr s _ (core_pause s) hs
  · exact hP.congr s1 _ rfl (hP.init s s1 hs hi)
  · exact hP.congr s _ rfl hs

theorem frame_ok (lastTime time : Int) (s s' : State)
    (h : frame lastTime time s = .ok s') :
    s' = s ∨
    (∃ lt, s' = { s with callbacks := s.callbacks ++ [⟨s.nextHandle, lt⟩]
                         nextHandle := s.nextHandle + 1
                         loopId := some s.nextHandle }) ∨
    (∃ s1, update s = .ok s1 ∧
      s' = { s1 with updates := s1.updates ++ [time]
                     callbacks := s1.callbacks ++ [⟨s1.nextHandle, time⟩]
                     nextHandle := s1.nextHandle + 1
                     loopId := some s1.nextHandle }) := by
  unfold frame at h
  by_cases hr : (!s.isRunning) = true
  · rw [if_pos hr] at h
    simp only [Except.ok.injEq] at h
    exact Or.inl h.symm
  · rw [if_neg hr] at h
    dsimp only at h
    by_cases hd : time - (if (lastTime == 0) = true then time else lastTime) ≥ s.speedMs
    · rw [if_pos hd] at h
      cases hu : update s with
      | error e => rw [hu] at h; simp at h
      | ok s1 =>
        rw [hu] at h
        simp only [requestAnimationFrame, Except.ok.injEq] at h
        exact Or.inr (Or.inr ⟨s1, rfl, h.symm⟩)
    · rw [if_neg hd] at h
      simp only [requestAnimationFrame, Except.ok.injEq] at h
      exact Or.inr (Or.inl ⟨_, h.symm⟩)

theorem keeps_frame (P : State → Prop) (hP : Preserved P) (lastTime time : Int)
    (s s' : State) (hs : P s) (h : frame lastTime time s = .ok s') : P s' := by
  rcases frame_ok lastTime time s s' h with rfl | ⟨lt, rfl⟩ | ⟨s1, hu, rfl⟩
  · exact hs
  · exact hP.congr s _ rfl hs
  · exact hP.congr s1 _ rfl (hP.tick s s1 hs hu)

theorem keeps_runCallbacks (P : State → Prop) (hP : Preserved P) (time : Int)
    (hs : List Nat) (s s' : State) (hinv : P s)
    (h : runCallbacks time hs s = .ok s') : P s' := by
  induction hs generalizing s with
  | nil =>
    simp only [runCallbacks, Except.ok.injEq] at h
    rw [← h]; exact hinv
  | cons a rest ih =>
    unfold runCallbacks at h
    split at h
    · exact ih s hinv h
    · rename_i cb _
      cases hf : frame cb.lastTime time (cancelAnimationFrame a s) with
      | error e => rw [hf] at h; simp at h
      | ok s1 =>
        rw [hf] at h
        exact ih s1 (keeps_frame P hP _ _ _ s1 (hP.congr s _ (core_cancel a s) hinv) hf) h

theorem keeps_keydown (P : State → Prop) (hP : Preserved P) (key : String)
    (s s' : State) (hs : P s) (h : keydown key s = .ok s') : P s' := by
  unfold keydown at h
  dsimp only at h
  split at h
  · simp only [Except.ok.injEq] at h
    rw [← h]; exact hP.turn s _ (by decide) hs
  · split at h
    · simp only [Except.ok.injEq] at h
      rw [← h]; exact hP.turn s _ (by decide) hs
    · split at h
      · simp only [Except.ok.injEq] at h
        rw [← h]; exact hP.turn s _ (by decide) hs
      · split at h
        · simp only [Except.ok.injEq] at h
          rw [← h]; exact hP.turn s _ (by decide) hs
        · split at h
          · exact keeps_start P hP s s' hs h
          · simp only [Except.ok.injEq] at h
            rw [← h]; exact hs

theorem keeps_dpadClick (P : State → Prop) (hP : Preserved P) (dir : String)
    (s s' : State) (hs : P s) (h : dpadClick dir s = .ok s') : P s' := by
  unfold dpadClick at h
  dsimp only at h
  have h1 : P (if dir == "up" then { s with nextDirection := ⟨0, -1⟩ } else s) := by
    split
    · exact hP.turn s _ (by decide) hs
    · exact hs
  generalize (if dir == "up" then { s with nextDirection := ⟨0, -1⟩ } else s) = t1 at h h1
  have h2 : P (if dir == "down" then { t1 with nextDirection := ⟨0, 1⟩ } else t1) := by
    split
    · exact hP.turn t1 _ (by decide) h1
    · exact h1
  generalize (if dir == "down" then { t1 with nextDirection := ⟨0, 1⟩ } else t1) = t2 at h h2
  have h3 : P (if dir == "left" then { t2 with nextDirection := ⟨-1, 0⟩ } else t2) := by
    split
    · exact hP.turn t2 _ (by decide) h2
    · exact h2
  generalize (if dir == "left" then { t2 with nextDirection := ⟨-1, 0⟩ } else t2) = t3 at h h3
  have h4 : P (if dir == "right" then { t3 with nextDirection := ⟨1, 0⟩ } else t3) := by
    split
    · exact hP.turn t3 _ (by decide) h3
    · exact h3
  generalize (if dir == "right" then { t3 with nextDirection := ⟨1, 0⟩ } else t3) = t4 at h h4
  split at h
  · exact keeps_start P hP t4 s' h4 h
  · simp only [Except.ok.injEq] at h
    rw [← h]; exact h4

theorem keeps_touchend (P : State → Prop) (hP : Preserved P) (dx dy : Int)
    (s s' : State) (hs : P s) (h : touchend dx dy s = .ok s') : P s' := by
  unfold touchend at h
  dsimp only at h
  have h1 : P (if |dx| > |dy| then
      { s with nextDirection := if dx > 0 then ⟨1, 0⟩ else ⟨-1, 0⟩ }
    else
      { s with nextDirection := if dy > 0 then ⟨0, 1⟩ else ⟨0, -1⟩ }) := by
    split
    · refine hP.turn s _ ?_ hs
      split <;> decide
    · refine hP.turn s _ ?_ hs
      split <;> decide
  generalize (if |dx| > |dy| then
      ({ s with nextDirection := if dx > 0 then ⟨1, 0⟩ else ⟨-1, 0⟩ } : State)
    else
      { s with nextDirection := if dy > 0 then ⟨0, 1⟩ else ⟨0, -1⟩ }) = t at h h1
  split at h
  · exact keeps_start P hP t s' h1 h
  · simp only [Except.ok.injEq] at h
    rw [← h]; exact h1

theorem keeps_step (P : State → Prop) (hP : Preserved P) (e : Event) (s s' : State)
    (hs : P s) (h : step e s = .ok s') : P s' := by
  cases e with
  | update => exact hP.tick s s' hs h
  | start => exact keeps_start P hP s s' hs h
  | pause =>
    simp only [step, Except.ok.injEq] at h
    rw [← h]; exact hP.congr s _ (core_pause s) hs
  | gameOver =>
    simp only [step, Except.ok.injEq] at h
    rw [← h]; exact hP.congr s _ (core_gameOver s) hs
  | initGame => exact hP.init s s' hs h
  | keydown key => exact keeps_keydown P hP key s s' hs h
  | restartClick =>
    simp only [step, restartClick] at h
    cases hi : initGame s with
    | error e => rw [hi] at h; simp at h
    | ok s1 =>
      rw [hi] at h
      exact keeps_start P hP s1 s' (hP.init s s1 hs hi) h
  | dpadClick dir => exact keeps_dpadClick P hP dir s s' hs h
  | touchend dx dy => exact keeps_touchend P hP dx dy s s' hs h
  | animationFrame time => exact keeps_runCallbacks P hP time _ s s' hs h

theorem Inv_preserved : Preserved Inv where
  congr := Inv_of_core
  init := fun s s' _ h => Inv_initGame s s' h
  tick := Inv_update
  turn := fun _ _ hd hs => ⟨hs.1, hs.2.1, hs.2.2.1, hd⟩

theorem Inv_reachable (s : State) (h : Reachable s) : Inv s := by
  induction h with
  | init s0 s hi => exact Inv_initGame s0 s hi
  | step e random s s1 _ hstep ih =>
    exact keeps_step Inv Inv_preserved e { s with random := random } s1 ih hstep

theorem update_food (s s' : State) (h : update s = .ok s') :
    (s'.food = s.food ∧ s'.random = s.random) ∨
    (∃ snake pos rest, spawnLoop snake s.random = .ok (pos, rest) ∧
      s'.food = some pos ∧ s'.random = rest) := by
  cases hsn : s.snake with
  | nil => simp [update, hsn] at h
  | cons head body =>
    cases hw : hitsWall (newHeadOf head (effectiveDirection s)) with
    | true =>
      rw [update_wall s head body hsn hw] at h
      simp only [Except.ok.injEq] at h
      rw [← h, gameOver_eq]
      exact Or.inl ⟨rfl, rfl⟩
    | false =>
      by_cases hb : newHeadOf head (effectiveDirection s) ∈ body
      · rw [update_body s head body hsn hw hb] at h
        simp only [Except.ok.injEq] at h
        rw [← h, gameOver_eq]
        exact Or.inl ⟨rfl, rfl⟩
      · by_cases hf : s.food = some (newHeadOf head (effectiveDirection s))
        · rw [update_eat s head body hsn hw hb hf] at h
          cases hsp : spawnLoop (newHeadOf head (effectiveDirection s) :: s.snake) s.random with
          | error e => rw [hsp] at h; simp at h
          | ok p =>
            obtain ⟨pos, rest⟩ := p
            rw [hsp] at h
            simp only [Except.ok.injEq] at h
            rw [← h]
            exact Or.inr ⟨_, pos, rest, hsp, rfl, rfl⟩
        · rw [update_move s head body hsn hw hb hf] at h
          simp only [Except.ok.injEq] at h
          rw [← h]
          exact Or.inl ⟨rfl, rfl⟩

theorem FoodInGrid_spawn (snake : List Coord) (draws rest : List Draw) (pos : Coord)
    (hfair : ∀ d ∈ draws, fairDraw d) (h : spawnLoop snake draws = .ok (pos, rest)) :
    contains pos ∧ ∀ d ∈ rest, fairDraw d := by
  obtain ⟨⟨d, hd, hpos⟩, -, hrest⟩ := spawnLoop_ok snake draws pos rest h
  exact ⟨hpos ▸ drawCell_contains d (hfair d hd), fun x hx => hfair x (hrest x hx)⟩

theorem FoodInGrid_initGame (s s' : State) (hfair : ∀ d ∈ s.random, fairDraw d)
    (h : initGame s = .ok s') : FoodInGrid s' := by
  obtain ⟨pos, rest, hsp, rfl⟩ := initGame_ok s s' h
  obtain ⟨hin, hrest⟩ := FoodInGrid_spawn _ _ _ _ hfair hsp
  refine ⟨?_, hrest⟩
  intro f hf
  simp only [Option.some.injEq] at hf
  exact hf ▸ hin

theorem FoodInGrid_preserved : Preserved FoodInGrid where
  congr := by
    intro s t h hs
    simp only [core, Prod.mk.injEq] at h
    obtain ⟨-, h2, -, -, h5⟩ := h
    unfold FoodInGrid at *
    rw [h2, h5]
    exact hs
  init := fun s s' hs h => FoodInGrid_initGame s s' hs.2 h
  tick := by
    intro s s' hs h
    rcases update_food s s' h with ⟨hf, hr⟩ | ⟨snake, pos, rest, hsp, hf, hr⟩
    · unfold FoodInGrid at *
      rw [hf, hr]
      exact hs
    · obtain ⟨hin, hrest⟩ := FoodInGrid_spawn _ _ _ _ hs.2 hsp
      refine ⟨?_, hr ▸ hrest⟩
      intro f hf2
      rw [hf, Option.some.injEq] at hf2
      exact hf2 ▸ hin
  turn := fun _ _ _ hs => hs

theorem FoodInGrid_played (s : State) (h : Played s) : FoodInGrid s := by
  induction h with
  | init s0 s hfair hi => exact FoodInGrid_initGame s0 s hfair hi
  | step e random s s1 _ hfair hstep ih =>
    exact keeps_step FoodInGrid FoodInGrid_preserved e { s with random := random } s1
      ⟨ih.1, hfair⟩ hstep

theorem Played_reachable (s : State) (h : Played s) : Reachable s := by
  induction h with
  | init s0 s _ hi => exact Reachable.init s0 s hi
  | step e random s s1 _ _ hstep ih => exact Reachable.step e random s s1 ih hstep

theorem loaded_played : Played loaded :=
  Played.init (boot 0 [drawOnSnake, drawTenTen, drawFiveFive]) loaded (by decide) (by decide)

theorem afterTwoTicks_played : Played afterTwoTicks := by
  have h1 : step .start { loaded with random := [drawFiveFive] } =
      .ok { loaded with isRunning := true, loopId := some 1, callbacks := [⟨1, 0⟩],
                        nextHandle := 2 } := by decide
  have h2 : step (.animationFrame 100)
      { ({ loaded with isRunning := true, loopId := some 1, callbacks := [⟨1, 0⟩],
                       nextHandle := 2 } : State) with random := [drawFiveFive] } =
      .ok { loaded with isRunning := true, loopId := some 2, callbacks := [⟨2, 100⟩],
                        nextHandle := 3 } := by decide
  have h3 : step (.animationFrame 260)
      { ({ loaded with isRunning := true, loopId := some 2, callbacks := [⟨2, 100⟩],
                       nextHandle := 3 } : State) with random := [drawFiveFive] } =
      .ok { loaded with snake := [⟨9, 10⟩, ⟨8, 10⟩, ⟨7, 10⟩], isRunning := true,
                        loopId := some 3, callbacks := [⟨3, 260⟩], nextHandle := 4,
                        updates := [260] } := by decide
  have h4 : step (.animationFrame 420)
      { ({ loaded with snake := [⟨9, 10⟩, ⟨8, 10⟩, ⟨7, 10⟩], isRunning := true,
                       loopId := some 3, callbacks := [⟨3, 260⟩], nextHandle := 4,
                       updates := [260] } : State) with random := [drawFiveFive] } =
      .ok afterTwoTicks := by decide
  have hfair : ∀ d ∈ [drawFiveFive], fairDraw d := by decide
  exact Played.step _ _ _ _
    (Played.step _ _ _ _
      (Played.step _ _ _ _ (Played.step _ _ _ _ loaded_played hfair h1) hfair h2) hfair h3)
    hfair h4

theorem afterTwoTicks_reachable : Reachable afterTwoTicks :=
  Played_reachable afterTwoTicks afterTwoTicks_played

theorem spawnFood_ok (s s' : State) (pos : Coord) (h : spawnFood s = .ok (pos, s')) :
    ∃ rest, spawnLoop s.snake s.random = .ok (pos, rest) := by
  unfold spawnFood at h
  cases hsp : spawnLoop s.snake s.random with
  | error e => rw [hsp] at h; simp at h
  | ok p =>
    obtain ⟨q, rest⟩ := p
    rw [hsp] at h
    simp only [Except.ok.injEq, Prod.mk.injEq] at h
    exact ⟨rest, by rw [h.1]⟩

/-- C7. Food is disjoint from the snake. Whenever `spawnFood()` returns, the
cell it returns is on no snake segment and, the pending results of
`Math.random()` being doubles at least 0 and below 1, inside the 20x20 grid:
`Math.floor(Math.random() * 20)` with the machine's rounding stays below 20.
It does return as soon as one pending draw gives a cell off the snake. In
every state reachable from `initGame()` the food is present and on no snake
segment; where every draw was one `Math.random()` can give, it is inside the
grid as well. -/
theorem food_disjoint :
    (∀ (s s' : State) (pos : Coord), spawnFood s = .ok (pos, s') →
        pos ∉ s.snake ∧ ((∀ d ∈ s.random, fairDraw d) → contains pos)) ∧
    (∀ s : State, (∃ d ∈ s.random, drawCell d ∉ s.snake) →
        ∃ pos s', spawnFood s = .ok (pos, s')) ∧
    (∀ s : State, Reachable s → ∃ f, s.food = some f ∧ f ∉ s.snake) ∧
    (∀ s : State, Played s → ∃ f, s.food = some f ∧ f ∉ s.snake ∧ contains f) := by
  refine ⟨?_, ?_, ?_, ?_⟩
  · intro s s' pos h
    obtain ⟨rest, hsp⟩ := spawnFood_ok s s' pos h
    exact ⟨(spawnLoop_ok _ _ _ _ hsp).2.1,
      fun hfair => (FoodInGrid_spawn _ _ _ _ hfair hsp).1⟩
  · intro s hfree
    obtain ⟨pos, rest, hsp⟩ := spawnLoop_returns _ _ hfree
    exact ⟨pos, { s with random := rest }, by simp [spawnFood, hsp]⟩
  · intro s hs
    exact (Inv_reachable s hs).1
  · intro s hs
    obtain ⟨f, hf, hfree⟩ := (Inv_reachable s (Played_reachable s hs)).1
    exact ⟨f, hf, hfree, (FoodInGrid_played s hs).1 f hf⟩

theorem food_disjoint_witness :
    spawnFood { loaded with random := [drawOnSnake, drawLargest] } =
      .ok (⟨19, 19⟩, { loaded with random := [] }) ∧
    contains ⟨19, 19⟩ ∧
    Played afterTwoTicks ∧
    ∃ f, afterTwoTicks.food = some f ∧ f ∉ afterTwoTicks.snake ∧ contains f := by
  have hs : spawnFood { loaded with random := [drawOnSnake, drawLargest] } =
      .ok (⟨19, 19⟩, { loaded with random := [] }) := by decide
  exact ⟨hs, (food_disjoint.1 _ _ _ hs).2 (by decide), afterTwoTicks_played,
    food_disjoint.2.2.2 afterTwoTicks afterTwoTicks_played⟩

/-- C10. Snake well-formedness is an invariant: in every state reachable from
`initGame()` by calls of update, start, pause, gameOver, initGame and by the
input events (each setting one of the four unit deltas), the snake is
non-empty, every segment lies inside the 20x20 grid, and no two segments have
the same coordinate. -/
theorem snake_well_formed (s : State) (h : Reachable s) :
    s.snake ≠ [] ∧ (∀ c ∈ s.snake, contains c) ∧
      (∀ i j, i < j → j < s.snake.length → s.snake[i]? ≠ s.snake[j]?) := by
  obtain ⟨h1, h2, h3⟩ := (Inv_reachable s h).2.1
  refine ⟨h1, h2, ?_⟩
  intro i j hij hj heq
  have hi : i < s.snake.length := by omega
  rw [List.getElem?_eq_getElem hi, List.getElem?_eq_getElem hj, Option.some.injEq] at heq
  have := (List.Nodup.getElem_inj_iff h3).mp heq
  omega

theorem snake_well_formed_witness :
    Reachable afterTwoTicks ∧ afterTwoTicks.snake ≠ [] ∧
      (∀ c ∈ afterTwoTicks.snake, contains c) ∧
      (∀ i j, i < j → j < afterTwoTicks.snake.length →
        afterTwoTicks.snake[i]? ≠ afterTwoTicks.snake[j]?) :=
  ⟨afterTwoTicks_reachable, snake_well_formed afterTwoTicks afterTwoTicks_reachable⟩

/-- Why the invariant carries the unit deltas: with the zero delta as direction
the body test, which skips index 0, lets the head be placed on itself. -/
theorem zero_delta_duplicates_head :
    update (playing [⟨8, 10⟩, ⟨7, 10⟩, ⟨6, 10⟩] ⟨0, 0⟩ ⟨0, 0⟩ (some ⟨3, 3⟩)) =
      .ok (playing [⟨8, 10⟩, ⟨8, 10⟩, ⟨7, 10⟩] ⟨0, 0⟩ ⟨0, 0⟩ (some ⟨3, 3⟩)) := by
  decide

/-! ## The clock -/

/-- C8. Idempotent pause: calling `pause()` twice gives the state one call
gives. After it `isRunning` is false and `isGameOver`, snake, food, score,
`speedMs` and best are as before the first call; the second call removes no
pending frame callback, the loop having been stopped by the first. -/
theorem pause_idempotent (s : State) :
    pause (pause s) = pause s ∧
    (pause s).isRunning = false ∧ (pause s).isGameOver = s.isGameOver ∧
    (pause s).snake = s.snake ∧ (pause s).food = s.food ∧ (pause s).score = s.score ∧
    (pause s).speedMs = s.speedMs ∧ (pause s).best = s.best ∧
    (pause (pause s)).callbacks = (pause s).callbacks ∧
    (∀ h, s.loopId = some h → h ≠ 0 → ∀ cb ∈ (pause s).callbacks, cb.handle ≠ h) := by
  have hidem : pause (pause s) = pause s := by
    unfold pause cancelLoop
    cases hl : s.loopId with
    | none => simp [hl]
    | some h =>
      by_cases h0 : h = 0
      · simp [hl, h0]
      · simp [hl, h0, cancelAnimationFrame, List.filter_filter]
  refine ⟨hidem, ?_, ?_, ?_, ?_, ?_, ?_, ?_, by rw [hidem], ?_⟩
  · rw [pause_eq]
  · rw [pause_eq]
  · rw [pause_eq]
  · rw [pause_eq]
  · rw [pause_eq]
  · rw [pause_eq]
  · rw [pause_eq]
  · intro h hl h0 cb hcb
    simp only [pause, cancelLoop, hl, cancelAnimationFrame] at hcb
    simp [h0] at hcb
    exact hcb.2

theorem pause_idempotent_witness :
    pause (pause afterTwoTicks) = pause afterTwoTicks ∧
    (pause afterTwoTicks).isRunning = false ∧ (pause afterTwoTicks).callbacks = [] := by
  refine ⟨(pause_idempotent afterTwoTicks).1, (pause_idempotent afterTwoTicks).2.1, ?_⟩
  decide

/-- C9 does not hold of the code: two frame loops can be live at once.
First, after the restart button is clicked while the game runs (`initGame()`
clears `isRunning` without cancelling the pending frame, `start()` then opens a
second loop), the one frame signal at 260 runs `update()` twice. Second, the
frame callback that made the fatal tick re-registers itself after
`gameOver()`, so a `start()` issued before the next frame leaves it live next
to the new loop: the ticks at 2180 and 2200 are 20 ms apart while the interval
in force is 160 ms. -/
theorem two_loops_tick_twice :
    (∃ s, run [.start, .restartClick, .animationFrame 100, .animationFrame 260] loaded = .ok s ∧
        s.updates = [260, 260] ∧ s.speedMs = 160 ∧
        s.snake = [⟨10, 10⟩, ⟨9, 10⟩, ⟨8, 10⟩] ∧ s.callbacks.length = 2) ∧
    (∃ s1 s, run ([.start, .animationFrame 100] ++ twelveFrames)
          { loaded with random := [drawFiveFive, drawFiveSix] } = .ok s1 ∧
        s1.isGameOver = true ∧ s1.isRunning = false ∧ s1.callbacks = [⟨14, 2020⟩] ∧
        run [.start, .animationFrame 2040, .animationFrame 2180, .animationFrame 2200] s1
          = .ok s ∧
        s.updates = s1.updates ++ [2180, 2200] ∧ s.speedMs = 160 ∧ s.callbacks.length = 2) := by
  refine ⟨⟨_, rfl, ?_, ?_, ?_, ?_⟩, ⟨_, _, rfl, ?_, ?_, ?_, rfl, ?_, ?_, ?_⟩⟩ <;> decide

end Cobrinha
